import Mathlib

/-
  Verification development for the Sedgwick County inmate scraper
  (src/simple_scraper.py).  The HTML handled by BeautifulSoup is embedded
  as a tree of element/text nodes; the scraper's parsing functions are
  translated one-to-one from the Python source.
-/

set_option maxHeartbeats 1000000

namespace SimpleScraper

mutual

/-- An HTML node as seen by BeautifulSoup: an element with a tag name, an
attribute list and children, or a navigable string. -/
inductive Node : Type where
  | elem : String → List (String × String) → NodeList → Node
  | text : String → Node
deriving DecidableEq

/-- A list of HTML nodes (the children of an element). -/
inductive NodeList : Type where
  | nil : NodeList
  | cons : Node → NodeList → NodeList
deriving DecidableEq

end

/-- Convert a plain list of nodes into a NodeList (used to build pages). -/
def nlist : List Node → NodeList
  | [] => NodeList.nil
  | n :: ns => NodeList.cons n (nlist ns)

/-- The nodes held by a NodeList, in order. -/
def NodeList.toList : NodeList → List Node
  | .nil => []
  | .cons n ns => n :: ns.toList

mutual

/-- All nodes of the subtree rooted at a node, in document (pre-)order,
the root included. -/
def subtree : Node → List Node
  | .elem t a cs => Node.elem t a cs :: forestNodes cs
  | .text s => [Node.text s]

/-- All nodes of a forest, in document (pre-)order. -/
def forestNodes : NodeList → List Node
  | .nil => []
  | .cons n ns => subtree n ++ forestNodes ns

end

/-- The descendants of a node (its subtree without the node itself); this is
what BeautifulSoup's find/find_all search below a tag. -/
def descendants : Node → List Node
  | .elem _ _ cs => forestNodes cs
  | .text _ => []

mutual

/-- Concatenated text of a node, as BeautifulSoup's .text property. -/
def nodeTextL : Node → List Char
  | .elem _ _ cs => forestTextL cs
  | .text s => s.data

/-- Concatenated text of a forest of nodes. -/
def forestTextL : NodeList → List Char
  | .nil => []
  | .cons n ns => nodeTextL n ++ forestTextL ns

end

/-- The .text property of a node. -/
def Node.innerText (n : Node) : String := String.mk (nodeTextL n)

/-- Attribute lookup in an attribute list. -/
def getAttr (attrs : List (String × String)) (nm : String) : Option String :=
  (attrs.find? (fun p => p.1 == nm)).map (fun p => p.2)

/-- The attribute list of a node (empty for a text node). -/
def Node.attrsOf : Node → List (String × String)
  | .elem _ a _ => a
  | .text _ => []

/-- Attribute lookup on a node. -/
def attrOf (n : Node) (nm : String) : Option String := getAttr n.attrsOf nm

/-- Does the node have the given element tag? -/
def isTag (t : String) (n : Node) : Bool :=
  match n with
  | .elem tg _ _ => tg == t
  | .text _ => false

/-- Is the node an element (a Tag, in BeautifulSoup terms)? -/
def isElemNode : Node → Bool
  | .elem _ _ _ => true
  | .text _ => false

/-- Contiguous-sublist test on character lists. -/
def isSubListOf (pat : List Char) : List Char → Bool
  | [] => pat.isEmpty
  | c :: tl => pat.isPrefixOf (c :: tl) || isSubListOf pat tl

/-- Lower-case a list of characters. -/
def lowerL (l : List Char) : List Char := l.map Char.toLower

/-- Case-insensitive substring test: the semantics of matching an attribute
value against re.compile(pat, re.I) for a pattern of plain letters. -/
def containsCI (pat s : String) : Bool :=
  isSubListOf (lowerL pat.data) (lowerL s.data)

/-- Python str.split() on a character list: split on runs of whitespace,
dropping empty pieces.  The accumulator holds the current word, reversed. -/
def pySplitAux : List Char → List Char → List (List Char)
  | [], acc => if acc.isEmpty then [] else [acc.reverse]
  | c :: cs, acc =>
    if c.isWhitespace then
      if acc.isEmpty then pySplitAux cs [] else acc.reverse :: pySplitAux cs []
    else pySplitAux cs (c :: acc)

/-- The whitespace-separated words of a character list (Python text.split()). -/
def pyWords (l : List Char) : List (List Char) := pySplitAux l []

/-- Python ' '.join on character lists. -/
def joinSp : List (List Char) → List Char
  | [] => []
  | [w] => w
  | w :: ws => w ++ ' ' :: joinSp ws

/-- Python str.strip() on a character list. -/
def stripL (l : List Char) : List Char :=
  ((l.dropWhile Char.isWhitespace).reverse.dropWhile Char.isWhitespace).reverse

/-- Python ' '.join on strings. -/
def joinSpStr (l : List String) : String := String.mk (joinSp (l.map String.data))

/-- _clean_text from the source: the empty (falsy) string becomes the
sentinel 'N/A'; otherwise whitespace runs are collapsed by
' '.join(text.split()) and the result stripped. -/
def clean_text (t : String) : String :=
  if t = "" then "N/A" else String.mk (stripL (joinSp (pyWords t.data)))

/-- Python dict assignment d[k] = v on an association list: an existing key
keeps its position and gets the new value, a fresh key is appended. -/
def dinsert {α : Type} (d : List (String × α)) (k : String) (v : α) :
    List (String × α) :=
  if d.any (fun p => p.1 == k) then
    d.map (fun p => if p.1 == k then (k, v) else p)
  else d ++ [(k, v)]

/-- Python dict lookup d.get(k) on an association list. -/
def dlookup {α : Type} (d : List (String × α)) (k : String) : Option α :=
  (d.find? (fun p => p.1 == k)).map (fun p => p.2)

/-- Is this node an input element whose name attribute equals nm?  This is
soup.find('input', \x7b'name': nm\x7d). -/
def isInputNamed (nm : String) (n : Node) : Bool :=
  isTag "input" n && (attrOf n "name" == some nm)

/-- First matching descendant of a node, in document order: soup.find. -/
def findFirst (p : Node → Bool) (root : Node) : Option Node :=
  (descendants root).find? p

/-- _get_form_data from the source: for each of the three ASP.NET hidden
inputs, if the input element is found its value attribute (defaulting to the
empty string) is stored under the input's name; a missing input contributes
nothing. -/
def get_form_data (soup : Node) : List (String × String) :=
  let fd0 : List (String × String) := []
  let fd1 := match findFirst (isInputNamed "__VIEWSTATE") soup with
    | some n => dinsert fd0 "__VIEWSTATE" ((attrOf n "value").getD "")
    | none => fd0
  let fd2 := match findFirst (isInputNamed "__VIEWSTATEGENERATOR") soup with
    | some n => dinsert fd1 "__VIEWSTATEGENERATOR" ((attrOf n "value").getD "")
    | none => fd1
  let fd3 := match findFirst (isInputNamed "__EVENTVALIDATION") soup with
    | some n => dinsert fd2 "__EVENTVALIDATION" ((attrOf n "value").getD "")
    | none => fd2
  fd3

/-- Does a table node's id attribute match re.compile(pat, re.I)? -/
def tableIdMatches (pat : String) (n : Node) : Bool :=
  isTag "table" n && (match attrOf n "id" with
    | some v => containsCI pat v
    | none => false)

/-- Does a table node's class attribute match re.compile('grid|result', re.I)? -/
def tableClassGridResult (n : Node) : Bool :=
  isTag "table" n && (match attrOf n "class" with
    | some v => containsCI "grid" v || containsCI "result" v
    | none => false)

/-- soup.find('table', \x7b'id': re.compile('GridView', re.I)\x7d). -/
def findTableById (soup : Node) : Option Node :=
  (descendants soup).find? (tableIdMatches "GridView")

/-- soup.find('table', \x7b'class': re.compile('grid|result', re.I)\x7d). -/
def findTableByClass (soup : Node) : Option Node :=
  (descendants soup).find? tableClassGridResult

/-- soup.find('table', \x7b'id': re.compile('Charges', re.I)\x7d). -/
def findChargesTable (soup : Node) : Option Node :=
  (descendants soup).find? (tableIdMatches "Charges")

/-- table.find_all('tr'): all tr descendants in document order. -/
def trsOf (t : Node) : List Node := (descendants t).filter (isTag "tr")

/-- row.find_all('td'): all td descendants in document order. -/
def tdsOf (r : Node) : List Node := (descendants r).filter (isTag "td")

/-- The maximal leading run of decimal digits. -/
def leadingDigits : List Char → List Char
  | [] => []
  | c :: cs => if c.isDigit then c :: leadingDigits cs else []

/-- re.search(r'InmateID=(\d+)', href) on a character list: scan for the
first occurrence of the literal 'InmateID=' followed by at least one digit
and return the maximal digit run (group 1). -/
def inmateIDSearch : List Char → Option (List Char)
  | [] => none
  | c :: cs =>
    if "InmateID=".data.isPrefixOf (c :: cs) then
      match ((c :: cs).drop 9).head? with
      | some d =>
        if d.isDigit then some (leadingDigits ((c :: cs).drop 9))
        else inmateIDSearch cs
      | none => inmateIDSearch cs
    else inmateIDSearch cs

/-- re.search(r'InmateID=(\d+)', href) returning group(1) as a string. -/
def searchInmateID (href : String) : Option String :=
  (inmateIDSearch href.data).map (fun l => String.mk l)

/-- cells[i].text cleaned when index i exists, else the 'N/A' sentinel:
the conditional expressions of the row dictionary in _parse_results. -/
def cellField (cells : List Node) (i : Nat) : String :=
  match cells[i]? with
  | some c => clean_text c.innerText
  | none => "N/A"

/-- cells[0].find('a') and link['href'] when the link has an href attribute. -/
def firstCellLinkHref (row : Node) : Option String :=
  match (tdsOf row).head? with
  | some c =>
    match (descendants c).find? (isTag "a") with
    | some link => attrOf link "href"
    | none => none
  | none => none

/-- One result-row record, as built by the loop body of _parse_results. -/
structure Inmate : Type where
  name : String
  booking_number : String
  booking_date : String
  age : String
  gender : String
  race : String
  facility : String
  source : String
  inmate_id : Option String
deriving DecidableEq

/-- The loop body of _parse_results: a row with at least 3 td cells yields a
record with positional fields 0-5, the two constants, and the optional
inmate_id taken from the first cell's link; a shorter row is skipped. -/
def parseRow (row : Node) : Option Inmate :=
  let cells := tdsOf row
  if 3 ≤ cells.length then
    some {
      name := cellField cells 0
      booking_number := cellField cells 1
      booking_date := cellField cells 2
      age := cellField cells 3
      gender := cellField cells 4
      race := cellField cells 5
      facility := "Sedgwick County Jail"
      source := "sedgwick_county"
      inmate_id := (firstCellLinkHref row).bind searchInmateID }
  else none

/-- table.find_all('tr')[1:] iterated through the row loop of _parse_results. -/
def parseTableRows (t : Node) : List Inmate :=
  ((trsOf t).drop 1).filterMap parseRow

/-- The table located by _parse_results: first by id pattern 'GridView'
(case-insensitive), falling back to class pattern 'grid|result'. -/
def locatedTable (soup : Node) : Option Node :=
  match findTableById soup with
  | some t => some t
  | none => findTableByClass soup

/-- _parse_results from the source: locate the results table by id pattern
'GridView' (case-insensitive), falling back to class pattern 'grid|result';
with no table the result is empty. -/
def parse_results (soup : Node) : List Inmate :=
  match locatedTable soup with
  | some t => parseTableRows t
  | none => []

/-- Is this node a span element whose class matches re.compile('label', re.I)?
This is the element filter of soup.find_all('span', ...) in
_parse_inmate_details. -/
def isLabelSpan (n : Node) : Bool :=
  isTag "span" n && (match attrOf n "class" with
    | some c => containsCI "label" c
    | none => false)

/-- Does the node (of any tag) have a class attribute matching
re.compile('label', re.I)?  Used to state the claim about label elements. -/
def hasLabelClass (n : Node) : Bool :=
  isElemNode n && (match attrOf n "class" with
    | some c => containsCI "label" c
    | none => false)

mutual

/-- The label/value pairs of _parse_inmate_details: every descendant span
whose class matches 'label', with the cleaned text of its next element
sibling (find_next_sibling skips navigable strings), in document order. -/
def labelPairsNode : Node → List (String × Option String)
  | .elem _ _ cs => labelPairsSib cs
  | .text _ => []

/-- Label/value pairs contributed by a list of sibling nodes. -/
def labelPairsSib : NodeList → List (String × Option String)
  | .nil => []
  | .cons n rest =>
    (if isLabelSpan n then
      [(clean_text n.innerText,
        (rest.toList.find? isElemNode).map (fun v => clean_text v.innerText))]
     else [])
    ++ labelPairsNode n ++ labelPairsSib rest

end

/-- A detail-dictionary value: a label value string or the charges list. -/
inductive DVal : Type where
  | s : String → DVal
  | charges : List String → DVal
deriving DecidableEq

/-- The charge string of one row: ' '.join of the cleaned cell texts. -/
def chargeOf (row : Node) : String :=
  joinSpStr ((tdsOf row).map (fun c => clean_text c.innerText))

/-- The charges list of _parse_inmate_details: rows after the first, a row
contributing one joined string when it has any td cell. -/
def chargesOf (t : Node) : List String :=
  ((trsOf t).drop 1).filterMap (fun row =>
    if (tdsOf row).isEmpty then none else some (chargeOf row))

/-- _parse_inmate_details from the source: label/value pairs entered into a
dictionary (a label with no following element sibling adds nothing), then
the charges table (id matching 'Charges', case-insensitive) adds the list
of joined row texts under the key 'charges'. -/
def parse_inmate_details (soup : Node) : List (String × DVal) :=
  let d := (labelPairsNode soup).foldl
    (fun d p => match p.2 with
      | some v => dinsert d p.1 (DVal.s v)
      | none => d) []
  match findChargesTable soup with
  | some t => dinsert d "charges" (DVal.charges (chargesOf t))
  | none => d

/-- Base URL of the scraped site (self.base_url). -/
def base_url : String := "https://ssc.sedgwickcounty.org/inmatesearch"

/-- The POST target of search_inmates (search_url). -/
def search_url : String := base_url ++ "/SearchResults.aspx"

/-- The detail URL for an inmate id (detail_url in get_inmate_details). -/
def detail_url (inmate_id : String) : String :=
  base_url ++ "/InmateDetail.aspx?InmateID=" ++ inmate_id

/-- The try-block of search_inmates.  The two HTTP calls are passed in as
fallible functions; a Python exception anywhere in the HTTP layer is an
Except.error.  The form fields are added to the token bundle exactly as in
the source, and the POST response parsed by _parse_results. -/
def search_body (get : String → Except String Node)
    (post : String → List (String × String) → Except String Node)
    (last_name first_name booking_number : String) :
    Except String (List Inmate) := do
  let soup ← get base_url
  let fd := get_form_data soup
  let fd := dinsert fd "txtLastName" last_name
  let fd := dinsert fd "txtFirstName" first_name
  let fd := dinsert fd "txtBookingNumber" booking_number
  let fd := dinsert fd "btnSearch" "Search"
  let rsoup ← post search_url fd
  pure (parse_results rsoup)

/-- search_inmates: the try-block result, with every exception caught and
turned into the empty list. -/
def search_inmates (get : String → Except String Node)
    (post : String → List (String × String) → Except String Node)
    (last_name first_name booking_number : String) : List Inmate :=
  match search_body get post last_name first_name booking_number with
  | .ok r => r
  | .error _ => []

/-- The try-block of get_inmate_details: fetch the detail URL and parse. -/
def details_body (get : String → Except String Node) (inmate_id : String) :
    Except String (List (String × DVal)) := do
  let soup ← get (detail_url inmate_id)
  pure (parse_inmate_details soup)

/-- get_inmate_details: the try-block result, with every exception caught
and turned into None. -/
def get_inmate_details (get : String → Except String Node)
    (inmate_id : String) : Option (List (String × DVal)) :=
  match details_body get inmate_id with
  | .ok d => some d
  | .error _ => none

/-- Modelled from the claim wording of C2: the same result parser, but with
the results table located by id pattern 'grid' (case-insensitive) instead of
the source's 'GridView'.  Used only to compare against parse_results. -/
def findTableByIdClaim (soup : Node) : Option Node :=
  (descendants soup).find? (tableIdMatches "grid")

/-- Modelled from the claim wording of C2: parse_results with the claim's
id pattern. -/
def parse_results_claim (soup : Node) : List Inmate :=
  match (match findTableByIdClaim soup with
         | some t => some t
         | none => findTableByClass soup) with
  | some t => parseTableRows t
  | none => []

/-- Modelled from the claim wording of C6: starting right after a '?' or
'&', a nonempty parameter name, then '=', then a digit. -/
def numericParamHere (l : List Char) : Bool :=
  let nm := l.takeWhile (fun c => !(c == '=') && !(c == '&'))
  !nm.isEmpty &&
    (match l.drop nm.length with
     | '=' :: d :: _ => d.isDigit
     | _ => false)

/-- Modelled from the claim wording of C6: scan for a query parameter whose
value starts with a digit. -/
def hasNumericParamAux : List Char → Bool
  | [] => false
  | c :: cs => ((c == '?' || c == '&') && numericParamHere cs) || hasNumericParamAux cs

/-- Modelled from the claim wording of C6: does the href carry a query
parameter encoding a numeric identifier? -/
def hasNumericQueryParam (href : String) : Bool :=
  hasNumericParamAux href.data

/-- No two adjacent whitespace characters. -/
def noWsRun : List Char → Bool
  | [] => true
  | [_] => true
  | a :: b :: t => !(a.isWhitespace && b.isWhitespace) && noWsRun (b :: t)

/-- A character list is whitespace-normalized: no leading or trailing
whitespace, no two adjacent whitespace characters, and every whitespace
character is a plain space. -/
def NormalizedL (l : List Char) : Prop :=
  (∀ c ∈ l.head?, ¬ c.isWhitespace) ∧
  (∀ c ∈ l.getLast?, ¬ c.isWhitespace) ∧
  noWsRun l = true ∧
  (∀ c ∈ l, c.isWhitespace → c = ' ')

instance (l : List Char) : Decidable (NormalizedL l) :=
  inferInstanceAs (Decidable (
    (∀ c ∈ l.head?, ¬ c.isWhitespace = true) ∧
    (∀ c ∈ l.getLast?, ¬ c.isWhitespace = true) ∧
    noWsRun l = true ∧
    (∀ c ∈ l, c.isWhitespace = true → c = ' ')))

/-- A string is whitespace-normalized. -/
def NormalizedStr (s : String) : Prop := NormalizedL s.data

instance (s : String) : Decidable (NormalizedStr s) :=
  inferInstanceAs (Decidable (NormalizedL s.data))

/-- A td cell holding one text node. -/
def tdS (s : String) : Node := Node.elem "td" [] (nlist [Node.text s])

/-- A tr row holding the given cells. -/
def trOf (cells : List Node) : Node := Node.elem "tr" [] (nlist cells)

/-- A th header cell holding one text node. -/
def thS (s : String) : Node := Node.elem "th" [] (nlist [Node.text s])

/-- A document root holding the given top-level nodes. -/
def docOf (ns : List Node) : Node := Node.elem "[document]" [] (nlist ns)

mutual

/-- Modelled from the claim wording of C7: the label/value pairs collected
from every element of any tag whose class matches 'label' (case-insensitive),
each with its next element sibling's cleaned text. -/
def labelPairsAnyNode : Node → List (String × Option String)
  | .elem _ _ cs => labelPairsAnySib cs
  | .text _ => []

/-- Claim-worded label/value pairs contributed by a list of sibling nodes. -/
def labelPairsAnySib : NodeList → List (String × Option String)
  | .nil => []
  | .cons n rest =>
    (if hasLabelClass n then
      [(clean_text n.innerText,
        (rest.toList.find? isElemNode).map (fun v => clean_text v.innerText))]
     else [])
    ++ labelPairsAnyNode n ++ labelPairsAnySib rest

end

/-- An HTTP GET that always fails, exercising the exception path. -/
def c1FailGet : String → Except String Node :=
  fun _ => Except.error "connection timed out"

/-- An HTTP POST that always fails, exercising the exception path. -/
def c1FailPost : String → List (String × String) → Except String Node :=
  fun _ _ => Except.error "connection timed out"

/-- A results table whose id matches 'grid' but not 'GridView'. -/
def c2Table : Node := Node.elem "table" [("id", "grid1")] (nlist [
  trOf [thS "Name", thS "Booking", thS "Date"],
  trOf [tdS "SMITH, ANNA", tdS "B9001", tdS "2023-05-01"]])

/-- A page holding only c2Table. -/
def c2CexDoc : Node := docOf [c2Table]

/-- A results table whose id matches 'GridView'. -/
def c2GoodTable : Node := Node.elem "table" [("id", "ctl00_GridView1")] (nlist [
  trOf [thS "Name", thS "Booking", thS "Date"],
  trOf [tdS "SMITH, ANNA", tdS "B9001", tdS "2023-05-01"]])

/-- A page holding only c2GoodTable. -/
def c2WitDoc : Node := docOf [c2GoodTable]

/-- A search page with no hidden token inputs at all. -/
def c3NoTokenDoc : Node := docOf [Node.elem "form" [] (nlist [])]

/-- A search page whose __VIEWSTATE input has no value attribute. -/
def c3NoValueDoc : Node := docOf [Node.elem "form" [] (nlist [
  Node.elem "input" [("name", "__VIEWSTATE")] (nlist [])])]

/-- A data row with four cells. -/
def c4Row1 : Node :=
  trOf [tdS "DOE, JOHN", tdS "B123", tdS "2024-01-01", tdS "34"]

/-- A data row with only two cells (dropped by the parser). -/
def c4Row2 : Node := trOf [tdS "ROE, RICHARD", tdS "B124"]

/-- A data row with exactly three cells. -/
def c4Row3 : Node := trOf [tdS "POE, JANE", tdS "B125", tdS "2024-01-03"]

/-- A header row. -/
def c4Hdr : Node := trOf [thS "Name", thS "Booking", thS "Date"]

/-- A results table with a header, a full row and a short row. -/
def c4Table : Node :=
  Node.elem "table" [("id", "GridView2")] (nlist [c4Hdr, c4Row1, c4Row2])

/-- A page holding only c4Table. -/
def c4Doc : Node := docOf [c4Table]

/-- A results table whose two data rows both have at least three cells. -/
def c4AllTable : Node :=
  Node.elem "table" [("id", "GridView2")] (nlist [c4Hdr, c4Row1, c4Row3])

/-- A page holding only c4AllTable. -/
def c4AllDoc : Node := docOf [c4AllTable]

/-- Charges row with two cells. -/
def c5R1 : Node := trOf [tdS "THEFT", tdS "FELONY"]

/-- Charges row with one cell. -/
def c5R2 : Node := trOf [tdS "BATTERY"]

/-- Charges header row. -/
def c5Hdr : Node := trOf [thS "Charge"]

/-- A charges table with a header and two data rows. -/
def c5Table : Node :=
  Node.elem "table" [("id", "gvCharges")] (nlist [c5Hdr, c5R1, c5R2])

/-- A detail page with one label span, its value span and a charges table. -/
def c5Doc : Node := docOf [
  Node.elem "span" [("class", "DetailLabel")] (nlist [Node.text "Name:"]),
  Node.elem "span" [] (nlist [Node.text "DOE, JIM"]),
  c5Table]

/-- A data row whose first cell links to a numeric PersonID query parameter
(not an InmateID one). -/
def c6Row : Node := trOf [
  Node.elem "td" [] (nlist [
    Node.elem "a" [("href", "InmateDetail.aspx?PersonID=123")]
      (nlist [Node.text "DOE, JANE"])]),
  tdS "B77", tdS "2024-02-02"]

/-- A results page holding the PersonID row. -/
def c6CexDoc : Node := docOf [
  Node.elem "table" [("id", "GridView1")] (nlist [
    trOf [thS "Name", thS "Booking", thS "Date"], c6Row])]

/-- A data row whose first cell links to an InmateID query parameter. -/
def c6WitRow : Node := trOf [
  Node.elem "td" [] (nlist [
    Node.elem "a" [("href", "InmateDetail.aspx?InmateID=456")]
      (nlist [Node.text "DOE, JANE"])]),
  tdS "B77", tdS "2024-02-02"]

/-- The summary record parsed from c6WitRow. -/
def c6WitInmate : Inmate := {
  name := "DOE, JANE"
  booking_number := "B77"
  booking_date := "2024-02-02"
  age := "N/A"
  gender := "N/A"
  race := "N/A"
  facility := "Sedgwick County Jail"
  source := "sedgwick_county"
  inmate_id := some "456" }

/-- A detail page whose label element is a div, not a span. -/
def c7CexDoc : Node := docOf [
  Node.elem "div" [("class", "DetailLabel")] (nlist [Node.text "Name:"]),
  Node.elem "span" [] (nlist [Node.text "DOE, JIM"])]

/-- A detail page whose charges row holds a whitespace-only cell. -/
def c9CexDoc : Node := docOf [
  Node.elem "table" [("id", "gvCharges")] (nlist [
    trOf [thS "Charge"],
    trOf [tdS "a", tdS " "]])]

/-- A detail page with one label span and its value span. -/
def c9WitDoc : Node := docOf [
  Node.elem "span" [("class", "label")] (nlist [Node.text "Booked:"]),
  Node.elem "span" [] (nlist [Node.text "2024-03-04"])]

/-- A detail page with neither labels nor a charges table. -/
def c10Doc : Node :=
  docOf [Node.elem "p" [] (nlist [Node.text "No inmate found"])]

/-- An HTTP GET that returns the empty detail page. -/
def c10Get : String → Except String Node := fun _ => Except.ok c10Doc

/-
  Helper lemmas: whitespace words, joins and normalization.
-/

theorem digit_not_ws {c : Char} (h : c.isDigit = true) : c.isWhitespace = false := by
  by_contra hne
  have hws : c.isWhitespace = true := by
    cases hb : c.isWhitespace
    · exact absurd hb hne
    · rfl
  have hor : (c = ' ' || c = '\t' || c = '\r' || c = '\n') = true := hws
  have : c = ' ' ∨ c = '\t' ∨ c = '\r' ∨ c = '\n' := by
    simpa [Bool.or_eq_true, decide_eq_true_eq, or_assoc] using hor
  rcases this with rfl | rfl | rfl | rfl <;> exact absurd h (by decide)

theorem pySplitAux_words_ok : ∀ (l acc : List Char),
    (∀ c ∈ acc, c.isWhitespace = false) →
    ∀ w ∈ pySplitAux l acc, w ≠ [] ∧ ∀ c ∈ w, c.isWhitespace = false := by
  intro l
  induction l with
  | nil =>
    intro acc hacc w hw
    by_cases h : acc.isEmpty = true
    · simp [pySplitAux, h] at hw
    · rw [pySplitAux, if_neg h] at hw
      simp only [List.mem_singleton] at hw
      subst hw
      refine ⟨?_, ?_⟩
      · have : acc ≠ [] := fun hn => h (by simp [hn])
        simpa using this
      · intro c hc
        exact hacc c (by simpa using hc)
  | cons a tl ih =>
    intro acc hacc w hw
    by_cases ha : a.isWhitespace = true
    · by_cases h : acc.isEmpty = true
      · rw [pySplitAux, if_pos ha, if_pos h] at hw
        exact ih [] (by simp) w hw
      · rw [pySplitAux, if_pos ha, if_neg h] at hw
        rcases List.mem_cons.mp hw with hw | hw
        · subst hw
          refine ⟨?_, ?_⟩
          · have : acc ≠ [] := fun hn => h (by simp [hn])
            simpa using this
          · intro c hc
            exact hacc c (by simpa using hc)
        · exact ih [] (by simp) w hw
    · have ha' : a.isWhitespace = false := by
        cases hb : a.isWhitespace
        · rfl
        · exact absurd hb ha
      rw [pySplitAux, if_neg (by simp [ha'])] at hw
      refine ih (a :: acc) ?_ w hw
      intro c hc
      rcases List.mem_cons.mp hc with rfl | hc
      · exact ha'
      · exact hacc c hc

theorem pyWords_ok (l : List Char) :
    ∀ w ∈ pyWords l, w ≠ [] ∧ ∀ c ∈ w, c.isWhitespace = false :=
  pySplitAux_words_ok l [] (by simp)

theorem pySplitAux_ne_nil_of_acc : ∀ (l acc : List Char), acc ≠ [] →
    pySplitAux l acc ≠ [] := by
  intro l
  induction l with
  | nil =>
    intro acc hacc
    rw [pySplitAux, if_neg (by simpa using hacc)]
    simp
  | cons a tl ih =>
    intro acc hacc
    by_cases ha : a.isWhitespace = true
    · rw [pySplitAux, if_pos ha, if_neg (by simpa using hacc)]
      simp
    · rw [pySplitAux, if_neg ha]
      exact ih (a :: acc) (by simp)

theorem pyWords_ne_nil : ∀ (l : List Char), (∃ c ∈ l, c.isWhitespace = false) →
    pySplitAux l [] ≠ [] := by
  intro l
  induction l with
  | nil => rintro ⟨c, hc, -⟩; simp at hc
  | cons a tl ih =>
    rintro ⟨c, hc, hcw⟩
    by_cases ha : a.isWhitespace = true
    · have hct : c ∈ tl := by
        rcases List.mem_cons.mp hc with rfl | h
        · rw [ha] at hcw; cases hcw
        · exact h
      rw [pySplitAux, if_pos ha, if_pos (by simp)]
      exact ih ⟨c, hct, hcw⟩
    · rw [pySplitAux, if_neg ha]
      exact pySplitAux_ne_nil_of_acc tl [a] (by simp)

@[simp] theorem joinSp_nil : joinSp [] = [] := rfl

@[simp] theorem joinSp_single (w : List Char) : joinSp [w] = w := rfl

theorem joinSp_cons₂ (w x : List Char) (t : List (List Char)) :
    joinSp (w :: x :: t) = w ++ ' ' :: joinSp (x :: t) := rfl

theorem joinSp_ne_nil : ∀ (ws : List (List Char)), ws ≠ [] →
    (∀ w ∈ ws, w ≠ []) → joinSp ws ≠ [] := by
  intro ws hne hw
  cases ws with
  | nil => exact absurd rfl hne
  | cons w t =>
    cases t with
    | nil => exact hw w (by simp)
    | cons x t' =>
      rw [joinSp_cons₂]
      intro hcon
      rcases List.exists_cons_of_ne_nil (hw w (by simp)) with ⟨c, w', rfl⟩
      simp at hcon

theorem joinSp_head? (w : List Char) (ws : List (List Char)) (hw : w ≠ []) :
    (joinSp (w :: ws)).head? = w.head? := by
  cases ws with
  | nil => rfl
  | cons x t =>
    rw [joinSp_cons₂]
    rcases List.exists_cons_of_ne_nil hw with ⟨c, w', rfl⟩
    rfl

theorem joinSp_getLast?_nonws : ∀ (ws : List (List Char)),
    (∀ w ∈ ws, w ≠ [] ∧ ∀ c ∈ w, c.isWhitespace = false) →
    ∀ c ∈ (joinSp ws).getLast?, c.isWhitespace = false := by
  intro ws
  induction ws with
  | nil => intro _ c hc; simp at hc
  | cons w t ih =>
    intro hok c hc
    cases t with
    | nil =>
      simp only [joinSp_single] at hc
      exact (hok w (by simp)).2 c (List.mem_of_mem_getLast? hc)
    | cons x t' =>
      rw [joinSp_cons₂] at hc
      have hne : (' ' :: joinSp (x :: t')) ≠ [] := by simp
      rw [List.getLast?_append_of_ne_nil w hne] at hc
      have hjne : joinSp (x :: t') ≠ [] := by
        refine joinSp_ne_nil _ (by simp) ?_
        intro u hu
        exact ((hok u (List.mem_cons_of_mem w hu)).1)
      have : (' ' :: joinSp (x :: t')) = [' '] ++ joinSp (x :: t') := rfl
      rw [this, List.getLast?_append_of_ne_nil _ hjne] at hc
      exact ih (fun u hu => hok u (List.mem_cons_of_mem w hu)) c hc

theorem chain'_of_wsfree : ∀ (l : List Char), (∀ c ∈ l, c.isWhitespace = false) →
    List.Chain' (fun a b => ¬ (a.isWhitespace ∧ b.isWhitespace)) l := by
  intro l
  induction l with
  | nil => intro _; simp
  | cons a t ih =>
    intro h
    cases t with
    | nil => simp
    | cons b t' =>
      refine List.Chain'.cons ?_ (ih (fun c hc => h c (List.mem_cons_of_mem a hc)))
      intro ⟨ha, _⟩
      rw [h a (by simp)] at ha
      cases ha

theorem noWsRun_iff_chain' : ∀ l : List Char, noWsRun l = true ↔
    List.Chain' (fun a b => ¬ (a.isWhitespace ∧ b.isWhitespace)) l := by
  intro l
  match l with
  | [] => simp [noWsRun]
  | [a] => simp [noWsRun]
  | a :: b :: t =>
    rw [noWsRun, List.chain'_cons, Bool.and_eq_true]
    constructor
    · rintro ⟨h1, h2⟩
      refine ⟨?_, (noWsRun_iff_chain' (b :: t)).mp h2⟩
      rintro ⟨ha, hb⟩
      simp [ha, hb] at h1
    · rintro ⟨h1, h2⟩
      refine ⟨?_, (noWsRun_iff_chain' (b :: t)).mpr h2⟩
      cases ha : a.isWhitespace
      · simp
      · cases hb : b.isWhitespace
        · simp
        · exact absurd ⟨ha, hb⟩ h1

theorem joinSp_chain' : ∀ (ws : List (List Char)),
    (∀ w ∈ ws, w ≠ [] ∧ ∀ c ∈ w, c.isWhitespace = false) →
    List.Chain' (fun a b => ¬ (a.isWhitespace ∧ b.isWhitespace)) (joinSp ws) := by
  intro ws
  induction ws with
  | nil => intro _; simp
  | cons w t ih =>
    intro hok
    cases t with
    | nil =>
      simp only [joinSp_single]
      exact chain'_of_wsfree w ((hok w (by simp)).2)
    | cons x t' =>
      rw [joinSp_cons₂]
      have hrest : ∀ u ∈ x :: t', u ≠ [] ∧ ∀ c ∈ u, c.isWhitespace = false :=
        fun u hu => hok u (List.mem_cons_of_mem w hu)
      refine List.chain'_append.mpr ⟨chain'_of_wsfree w ((hok w (by simp)).2), ?_, ?_⟩
      · refine List.Chain'.cons' (ih hrest) ?_
        intro c hc hand
        rcases hand with ⟨hsp, hcws⟩
        have hhead := joinSp_head? x t' (hrest x (by simp)).1
        rw [hhead] at hc
        have hcx : c ∈ x := List.mem_of_mem_head? hc
        rw [(hrest x (by simp)).2 c hcx] at hcws
        cases hcws
      · intro a ha b hb hand
        rcases hand with ⟨haws, _⟩
        have haw : a ∈ w := List.mem_of_mem_getLast? ha
        rw [(hok w (by simp)).2 a haw] at haws
        cases haws

theorem joinSp_mem : ∀ (ws : List (List Char)) (c : Char), c ∈ joinSp ws →
    (∃ w ∈ ws, c ∈ w) ∨ c = ' ' := by
  intro ws
  induction ws with
  | nil => intro c hc; simp at hc
  | cons w t ih =>
    intro c hc
    cases t with
    | nil =>
      simp only [joinSp_single] at hc
      exact Or.inl ⟨w, by simp, hc⟩
    | cons x t' =>
      rw [joinSp_cons₂] at hc
      rcases List.mem_append.mp hc with hc | hc
      · exact Or.inl ⟨w, by simp, hc⟩
      · rcases List.mem_cons.mp hc with rfl | hc
        · exact Or.inr rfl
        · rcases ih c hc with ⟨u, hu, hcu⟩ | rfl
          · exact Or.inl ⟨u, List.mem_cons_of_mem w hu, hcu⟩
          · exact Or.inr rfl

theorem joinSp_normalized (ws : List (List Char))
    (hok : ∀ w ∈ ws, w ≠ [] ∧ ∀ c ∈ w, c.isWhitespace = false) :
    NormalizedL (joinSp ws) := by
  refine ⟨?_, ?_, (noWsRun_iff_chain' _).mpr (joinSp_chain' ws hok), ?_⟩
  · intro c hc
    cases ws with
    | nil => simp at hc
    | cons w t =>
      rw [joinSp_head? w t (hok w (by simp)).1] at hc
      have hcw : c ∈ w := List.mem_of_mem_head? hc
      simp [(hok w (by simp)).2 c hcw]
  · intro c hc
    simp [joinSp_getLast?_nonws ws hok c hc]
  · intro c hc hws
    rcases joinSp_mem ws c hc with ⟨w, hw, hcw⟩ | rfl
    · rw [(hok w hw).2 c hcw] at hws
      cases hws
    · rfl

theorem dropWhile_eq_self_of_head (l : List Char)
    (h : ∀ c ∈ l.head?, c.isWhitespace = false) :
    l.dropWhile Char.isWhitespace = l := by
  cases l with
  | nil => rfl
  | cons a t =>
    rw [List.dropWhile_cons, if_neg]
    rw [h a (by simp)]
    simp

theorem stripL_eq_self (l : List Char)
    (hh : ∀ c ∈ l.head?, c.isWhitespace = false)
    (hl : ∀ c ∈ l.getLast?, c.isWhitespace = false) :
    stripL l = l := by
  unfold stripL
  rw [dropWhile_eq_self_of_head l hh]
  rw [dropWhile_eq_self_of_head l.reverse (by simpa [List.head?_reverse] using hl)]
  exact List.reverse_reverse l

theorem normalized_of_wsfree (l : List Char)
    (h : ∀ c ∈ l, c.isWhitespace = false) : NormalizedL l := by
  refine ⟨?_, ?_, (noWsRun_iff_chain' _).mpr (chain'_of_wsfree l h), ?_⟩
  · intro c hc
    simp [h c (List.mem_of_mem_head? hc)]
  · intro c hc
    simp [h c (List.mem_of_mem_getLast? hc)]
  · intro c hc hws
    rw [h c hc] at hws
    cases hws

theorem normalizedL_stripL_joinSp (ws : List (List Char))
    (hok : ∀ w ∈ ws, w ≠ [] ∧ ∀ c ∈ w, c.isWhitespace = false) :
    stripL (joinSp ws) = joinSp ws ∧ NormalizedL (joinSp ws) := by
  have hn := joinSp_normalized ws hok
  refine ⟨stripL_eq_self _ ?_ ?_, hn⟩
  · intro c hc
    have := hn.1 c hc
    cases hb : c.isWhitespace
    · rfl
    · exact absurd hb this
  · intro c hc
    have := hn.2.1 c hc
    cases hb : c.isWhitespace
    · rfl
    · exact absurd hb this

theorem clean_text_normalized (s : String) : NormalizedStr (clean_text s) := by
  unfold clean_text
  by_cases h : s = ""
  · rw [if_pos h]
    decide
  · rw [if_neg h]
    show NormalizedL (String.mk (stripL (joinSp (pyWords s.data)))).data
    have hok := pyWords_ok s.data
    have hsj := normalizedL_stripL_joinSp (pyWords s.data) hok
    rw [show (String.mk (stripL (joinSp (pyWords s.data)))).data
          = stripL (joinSp (pyWords s.data)) from rfl, hsj.1]
    exact hsj.2

theorem pySplitAux_append_nonws : ∀ (w l acc : List Char),
    (∀ c ∈ w, c.isWhitespace = false) →
    pySplitAux (w ++ l) acc = pySplitAux l (w.reverse ++ acc) := by
  intro w
  induction w with
  | nil => intro l acc _; simp
  | cons a w' ih =>
    intro l acc hws
    have ha : a.isWhitespace = false := hws a (by simp)
    rw [List.cons_append, pySplitAux, if_neg (by simp [ha])]
    rw [ih l (a :: acc) (fun c hc => hws c (List.mem_cons_of_mem a hc))]
    rw [List.reverse_cons, List.append_assoc]
    rfl

theorem pySplit_joinSp : ∀ (ws : List (List Char)),
    (∀ w ∈ ws, w ≠ [] ∧ ∀ c ∈ w, c.isWhitespace = false) →
    pySplitAux (joinSp ws) [] = ws := by
  intro ws
  induction ws with
  | nil => intro _; rfl
  | cons w t ih =>
    intro hok
    have hw := hok w (by simp)
    cases t with
    | nil =>
      simp only [joinSp_single]
      rw [show w = w ++ [] from (List.append_nil w).symm,
        pySplitAux_append_nonws w [] [] hw.2]
      rw [pySplitAux, List.append_nil, if_neg (by simpa using hw.1)]
      simp
    | cons x t' =>
      rw [joinSp_cons₂, pySplitAux_append_nonws w _ [] hw.2, List.append_nil]
      rw [pySplitAux, if_pos (by decide), if_neg (by simpa using hw.1)]
      rw [List.reverse_reverse]
      rw [ih (fun u hu => hok u (List.mem_cons_of_mem w hu))]

theorem clean_text_idem (s : String)
    (h : s = "" ∨ ∃ c ∈ s.data, c.isWhitespace = false) :
    clean_text (clean_text s) = clean_text s := by
  rcases h with rfl | hex
  · decide
  · have hsne : s ≠ "" := by
      rcases hex with ⟨c, hc, -⟩
      intro hcon
      subst hcon
      simp at hc
    have hok := pyWords_ok s.data
    have hwne : pyWords s.data ≠ [] := pyWords_ne_nil s.data hex
    have hstrip := (normalizedL_stripL_joinSp (pyWords s.data) hok).1
    have h1 : clean_text s = String.mk (joinSp (pyWords s.data)) := by
      unfold clean_text
      rw [if_neg hsne, hstrip]
    have hjne : joinSp (pyWords s.data) ≠ [] :=
      joinSp_ne_nil _ hwne (fun u hu => (hok u hu).1)
    rw [h1]
    unfold clean_text
    rw [if_neg (by
      intro hcon
      exact hjne (congrArg String.data hcon))]
    show String.mk (stripL (joinSp (pyWords (joinSp (pyWords s.data))))) = _
    rw [show pyWords (joinSp (pyWords s.data)) = pyWords s.data from
      pySplit_joinSp (pyWords s.data) hok]
    rw [hstrip]

/-
  Helper lemmas: dictionaries (association lists with Python dict semantics).
-/

theorem bool_eq_false {b : Bool} (h : ¬ b = true) : b = false := by
  cases b
  · rfl
  · exact absurd rfl h

theorem dlookup_cons {α : Type} (p : String × α) (t : List (String × α))
    (k' : String) :
    dlookup (p :: t) k' = if (p.1 == k') = true then some p.2 else dlookup t k' := by
  by_cases hp : (p.1 == k') = true
  · simp [dlookup, List.find?_cons, hp]
  · simp [dlookup, List.find?_cons, bool_eq_false hp]

theorem dlookup_map_repl_cases {α : Type} (k : String) (v : α) :
    ∀ (d : List (String × α)) (k' : String) (w : α),
    dlookup (d.map (fun p => if p.1 == k then (k, v) else p)) k' = some w →
    w = v ∨ dlookup d k' = some w := by
  intro d
  induction d with
  | nil => intro k' w h; simp [dlookup] at h
  | cons p t ih =>
    intro k' w h
    simp only [List.map_cons] at h
    by_cases hp : (p.1 == k) = true
    · rw [if_pos hp, dlookup_cons] at h
      by_cases hk : (k == k') = true
      · rw [if_pos (show (((k, v) : String × α).1 == k') = true from hk)] at h
        exact Or.inl (Option.some.inj h).symm
      · rw [if_neg (show ¬ (((k, v) : String × α).1 == k') = true from hk)] at h
        rcases ih k' w h with h1 | h1
        · exact Or.inl h1
        · right
          rw [dlookup_cons, if_neg]
          · exact h1
          · rw [eq_of_beq hp]
            exact hk
    · rw [if_neg hp, dlookup_cons] at h
      by_cases hpk : (p.1 == k') = true
      · rw [if_pos hpk] at h
        right
        rw [dlookup_cons, if_pos hpk]
        exact h
      · rw [if_neg hpk] at h
        rcases ih k' w h with h1 | h1
        · exact Or.inl h1
        · right
          rw [dlookup_cons, if_neg hpk]
          exact h1

theorem dlookup_append_single_cases {α : Type} :
    ∀ (d : List (String × α)) (k : String) (v : α) (k' : String) (w : α),
    dlookup (d ++ [(k, v)]) k' = some w → w = v ∨ dlookup d k' = some w := by
  intro d k v k'
  induction d with
  | nil =>
    intro w h
    rw [List.nil_append, dlookup_cons] at h
    by_cases hk : ((k, v).1 == k') = true
    · rw [if_pos hk] at h
      exact Or.inl (Option.some.inj h).symm
    · rw [if_neg hk] at h
      simp [dlookup] at h
  | cons p t ih =>
    intro w h
    rw [List.cons_append, dlookup_cons] at h
    by_cases hp : (p.1 == k') = true
    · rw [if_pos hp] at h
      right
      rw [dlookup_cons, if_pos hp]
      exact h
    · rw [if_neg hp] at h
      rcases ih w h with h1 | h1
      · exact Or.inl h1
      · right
        rw [dlookup_cons, if_neg hp]
        exact h1

theorem dlookup_dinsert_cases {α : Type} (d : List (String × α)) (k : String)
    (v : α) (k' : String) (w : α) (h : dlookup (dinsert d k v) k' = some w) :
    w = v ∨ dlookup d k' = some w := by
  unfold dinsert at h
  by_cases hany : d.any (fun p => p.1 == k) = true
  · rw [if_pos hany] at h
    exact dlookup_map_repl_cases k v d k' w h
  · rw [if_neg hany] at h
    exact dlookup_append_single_cases d k v k' w h

/-
  Helper lemmas: tree membership and label pairs.
-/

theorem self_mem_subtree : ∀ n : Node, n ∈ subtree n := by
  intro n
  cases n with
  | elem t a cs => rw [subtree]; exact List.mem_cons_self _ _
  | text s => rw [subtree]; exact List.mem_cons_self _ _

theorem descendants_subset_subtree : ∀ (n m : Node), m ∈ descendants n →
    m ∈ subtree n := by
  intro n m h
  cases n with
  | elem t a cs =>
    rw [descendants] at h
    rw [subtree]
    exact List.mem_cons_of_mem _ h
  | text s =>
    rw [descendants] at h
    simp at h

mutual

theorem labelPairsNode_origin : ∀ (n : Node) (p : String × Option String),
    p ∈ labelPairsNode n →
    (∃ m ∈ descendants n, isLabelSpan m = true ∧ p.1 = clean_text m.innerText) ∧
    (∀ v, p.2 = some v → ∃ u : Node, v = clean_text u.innerText)
  | Node.elem t a cs, p, hp => by
    rw [labelPairsNode] at hp
    have h := labelPairsSib_origin cs p hp
    rw [descendants]
    exact h
  | Node.text s, p, hp => by
    rw [labelPairsNode] at hp
    simp at hp

theorem labelPairsSib_origin : ∀ (ns : NodeList) (p : String × Option String),
    p ∈ labelPairsSib ns →
    (∃ m ∈ forestNodes ns, isLabelSpan m = true ∧ p.1 = clean_text m.innerText) ∧
    (∀ v, p.2 = some v → ∃ u : Node, v = clean_text u.innerText)
  | NodeList.nil, p, hp => by
    rw [labelPairsSib] at hp
    simp at hp
  | NodeList.cons n rest, p, hp => by
    rw [labelPairsSib] at hp
    rcases List.mem_append.mp hp with hp1 | hp2
    · rcases List.mem_append.mp hp1 with hp0 | hpn
      · by_cases hl : isLabelSpan n = true
        · rw [if_pos hl] at hp0
          simp only [List.mem_singleton] at hp0
          subst hp0
          constructor
          · refine ⟨n, ?_, hl, rfl⟩
            rw [forestNodes]
            exact List.mem_append_left _ (self_mem_subtree n)
          · intro v hv
            simp only at hv
            rcases Option.map_eq_some'.mp hv with ⟨u, _, hu2⟩
            exact ⟨u, hu2.symm⟩
        · rw [if_neg hl] at hp0
          simp at hp0
      · have h := labelPairsNode_origin n p hpn
        rcases h with ⟨⟨m, hm, hml, hmp⟩, hval⟩
        refine ⟨⟨m, ?_, hml, hmp⟩, hval⟩
        rw [forestNodes]
        exact List.mem_append_left _ (descendants_subset_subtree n m hm)
    · have h := labelPairsSib_origin rest p hp2
      rcases h with ⟨⟨m, hm, hml, hmp⟩, hval⟩
      refine ⟨⟨m, ?_, hml, hmp⟩, hval⟩
      rw [forestNodes]
      exact List.mem_append_right _ hm

end

/-
  Helper lemmas: InmateID extraction.
-/

theorem leadingDigits_digits : ∀ (l : List Char), ∀ c ∈ leadingDigits l,
    c.isDigit = true := by
  intro l
  induction l with
  | nil => intro c hc; simp [leadingDigits] at hc
  | cons a t ih =>
    intro c hc
    rw [leadingDigits] at hc
    by_cases ha : a.isDigit = true
    · rw [if_pos ha] at hc
      rcases List.mem_cons.mp hc with rfl | hc
      · exact ha
      · exact ih c hc
    · rw [if_neg ha] at hc
      simp at hc

theorem leadingDigits_decomp : ∀ (l : List Char), ∃ post,
    l = leadingDigits l ++ post := by
  intro l
  induction l with
  | nil => exact ⟨[], rfl⟩
  | cons a t ih =>
    by_cases ha : a.isDigit = true
    · rcases ih with ⟨post, hp⟩
      refine ⟨post, ?_⟩
      rw [leadingDigits, if_pos ha, List.cons_append]
      exact congrArg (a :: ·) hp
    · refine ⟨a :: t, ?_⟩
      rw [leadingDigits, if_neg ha]
      rfl

theorem inmateIDSearch_shape : ∀ (l m : List Char), inmateIDSearch l = some m →
    m ≠ [] ∧ (∀ c ∈ m, c.isDigit = true) ∧
    ∃ pre post, l = pre ++ "InmateID=".data ++ m ++ post := by
  intro l
  induction l with
  | nil => intro m h; rw [inmateIDSearch] at h; cases h
  | cons a cs ih =>
    intro m h
    rw [inmateIDSearch] at h
    by_cases hpre : ("InmateID=".data.isPrefixOf (a :: cs)) = true
    · rw [if_pos hpre] at h
      split at h
      case _ d hds =>
        by_cases hdd : d.isDigit = true
        · rw [if_pos hdd] at h
          have hm : m = leadingDigits ((a :: cs).drop 9) := by
            injection h with h'
            exact h'.symm
          subst hm
          refine ⟨?_, leadingDigits_digits _, ?_⟩
          · cases hdl : (a :: cs).drop 9 with
            | nil => rw [hdl] at hds; cases hds
            | cons d' t' =>
              rw [hdl] at hds
              have hd' : d' = d := by
                injection hds with h''
              subst hd'
              rw [leadingDigits, if_pos hdd]
              simp
          · rw [ List.isPrefixOf_iff_prefix] at hpre
            rcases hpre with ⟨rest, hr⟩
            have hrest : rest = (a :: cs).drop 9 := by
              have := congrArg (fun l => l.drop 9) hr
              simpa [List.drop_left' (show ("InmateID=".data).length = 9 by decide)]
                using this
            rcases leadingDigits_decomp ((a :: cs).drop 9) with ⟨post, hpost⟩
            refine ⟨[], post, ?_⟩
            simp only [List.nil_append]
            calc a :: cs = "InmateID=".data ++ ((a :: cs).drop 9) := by
                  rw [← hrest]; exact hr.symm
              _ = "InmateID=".data ++ (leadingDigits ((a :: cs).drop 9) ++ post) :=
                  congrArg (fun l => "InmateID=".data ++ l) hpost
              _ = "InmateID=".data ++ leadingDigits ((a :: cs).drop 9) ++ post := by
                  rw [List.append_assoc]
        · rw [if_neg hdd] at h
          rcases ih m h with ⟨h1, h2, pre, post, hdec⟩
          exact ⟨h1, h2, a :: pre, post, by simp [hdec]⟩
      case _ hds =>
        rcases ih m h with ⟨h1, h2, pre, post, hdec⟩
        exact ⟨h1, h2, a :: pre, post, by simp [hdec]⟩
    · rw [if_neg hpre] at h
      rcases ih m h with ⟨h1, h2, pre, post, hdec⟩
      exact ⟨h1, h2, a :: pre, post, by simp [hdec]⟩

theorem searchInmateID_shape (href s : String) (h : searchInmateID href = some s) :
    s ≠ "" ∧ (∀ c ∈ s.data, c.isDigit = true) ∧
    ∃ pre post, href.data = pre ++ ("InmateID=" ++ s).data ++ post := by
  unfold searchInmateID at h
  rcases Option.map_eq_some'.mp h with ⟨m, hm, hms⟩
  rcases inmateIDSearch_shape href.data m hm with ⟨h1, h2, pre, post, hdec⟩
  subst hms
  refine ⟨?_, h2, pre, post, ?_⟩
  · intro hcon
    exact h1 (congrArg String.data hcon)
  · rw [String.data_append]
    simp [hdec]

theorem searchInmateID_normalized (href s : String)
    (h : searchInmateID href = some s) : NormalizedStr s := by
  rcases searchInmateID_shape href s h with ⟨-, hdig, -⟩
  exact normalized_of_wsfree s.data (fun c hc => digit_not_ws (hdig c hc))

/-
  Helper lemmas: result rows and details dictionaries.
-/

theorem parseRow_some (row : Node) (i : Inmate) (h : parseRow row = some i) :
    3 ≤ (tdsOf row).length ∧
    i.name = cellField (tdsOf row) 0 ∧
    i.booking_number = cellField (tdsOf row) 1 ∧
    i.booking_date = cellField (tdsOf row) 2 ∧
    i.age = cellField (tdsOf row) 3 ∧
    i.gender = cellField (tdsOf row) 4 ∧
    i.race = cellField (tdsOf row) 5 ∧
    i.facility = "Sedgwick County Jail" ∧
    i.source = "sedgwick_county" ∧
    i.inmate_id = (firstCellLinkHref row).bind searchInmateID := by
  simp only [parseRow] at h
  by_cases h3 : 3 ≤ (tdsOf row).length
  · rw [if_pos h3] at h
    have hi := Option.some.inj h
    subst hi
    exact ⟨h3, rfl, rfl, rfl, rfl, rfl, rfl, rfl, rfl, rfl⟩
  · rw [if_neg h3] at h
    cases h

theorem parseRow_none (row : Node) (h3 : ¬ 3 ≤ (tdsOf row).length) :
    parseRow row = none := by
  simp only [parseRow]
  rw [if_neg h3]

theorem parseRow_isSome (row : Node) (h3 : 3 ≤ (tdsOf row).length) :
    ∃ i, parseRow row = some i := by
  simp only [parseRow]
  rw [if_pos h3]
  exact ⟨_, rfl⟩

theorem length_filterMap_parseRow : ∀ rows : List Node,
    (rows.filterMap parseRow).length =
    (rows.filter (fun r => decide (3 ≤ (tdsOf r).length))).length := by
  intro rows
  induction rows with
  | nil => rfl
  | cons r t ih =>
    by_cases h3 : 3 ≤ (tdsOf r).length
    · rcases parseRow_isSome r h3 with ⟨i, hi⟩
      rw [List.filterMap_cons, List.filter_cons, hi]
      simp [h3, ih]
    · rw [List.filterMap_cons, List.filter_cons, parseRow_none r h3]
      simp [h3, ih]

theorem cellField_normalized (cells : List Node) (i : Nat) :
    NormalizedStr (cellField cells i) := by
  unfold cellField
  cases h : cells[i]? with
  | some c => exact clean_text_normalized _
  | none => decide

theorem parse_results_normalized (soup : Node) (i : Inmate)
    (h : i ∈ parse_results soup) :
    NormalizedStr i.name ∧ NormalizedStr i.booking_number ∧
    NormalizedStr i.booking_date ∧ NormalizedStr i.age ∧
    NormalizedStr i.gender ∧ NormalizedStr i.race ∧
    NormalizedStr i.facility ∧ NormalizedStr i.source ∧
    (∀ s, i.inmate_id = some s → NormalizedStr s) := by
  unfold parse_results at h
  cases hloc : locatedTable soup with
  | none => rw [hloc] at h; simp at h
  | some t =>
    rw [hloc] at h
    unfold parseTableRows at h
    rcases List.mem_filterMap.mp h with ⟨row, _, hpr⟩
    rcases parseRow_some row i hpr with
      ⟨h3, hn, hb, hd, ha, hg, hr, hf, hs, hid⟩
    refine ⟨?_, ?_, ?_, ?_, ?_, ?_, ?_, ?_, ?_⟩
    · rw [hn]; exact cellField_normalized _ _
    · rw [hb]; exact cellField_normalized _ _
    · rw [hd]; exact cellField_normalized _ _
    · rw [ha]; exact cellField_normalized _ _
    · rw [hg]; exact cellField_normalized _ _
    · rw [hr]; exact cellField_normalized _ _
    · rw [hf]; decide
    · rw [hs]; decide
    · intro s hsome
      rw [hid] at hsome
      cases hh : firstCellLinkHref row with
      | none => rw [hh] at hsome; cases hsome
      | some href =>
        rw [hh] at hsome
        exact searchInmateID_normalized href s hsome

theorem details_fold_values : ∀ (ps : List (String × Option String))
    (d0 : List (String × DVal)),
    (∀ p ∈ ps, ∀ v, p.2 = some v → ∃ x, v = clean_text x) →
    (∀ k w, dlookup d0 k = some w → ∃ v, w = DVal.s v ∧ NormalizedStr v) →
    ∀ k w, dlookup (ps.foldl (fun d p => match p.2 with
        | some v => dinsert d p.1 (DVal.s v)
        | none => d) d0) k = some w →
    ∃ v, w = DVal.s v ∧ NormalizedStr v := by
  intro ps
  induction ps with
  | nil => intro d0 _ hd0 k w h; exact hd0 k w h
  | cons p t ih =>
    intro d0 hps hd0 k w h
    rw [List.foldl_cons] at h
    cases hp2 : p.2 with
    | some v =>
      have hx : ∃ x, v = clean_text x := hps p (by simp) v hp2
      refine ih (dinsert d0 p.1 (DVal.s v))
        (fun q hq => hps q (List.mem_cons_of_mem p hq)) ?_ k w ?_
      · intro k' w' hw'
        rcases dlookup_dinsert_cases d0 p.1 (DVal.s v) k' w' hw' with h1 | h1
        · subst h1
          rcases hx with ⟨x, hx⟩
          exact ⟨v, rfl, hx ▸ clean_text_normalized x⟩
        · exact hd0 k' w' h1
      · rw [hp2] at h
        exact h
    | none =>
      refine ih d0 (fun q hq => hps q (List.mem_cons_of_mem p hq)) hd0 k w ?_
      rw [hp2] at h
      exact h

theorem parse_inmate_details_values (soup : Node) (k v : String)
    (h : dlookup (parse_inmate_details soup) k = some (DVal.s v)) :
    NormalizedStr v := by
  have hps : ∀ p ∈ labelPairsNode soup, ∀ u, p.2 = some u →
      ∃ x, u = clean_text x := by
    intro p hp u hu
    rcases (labelPairsNode_origin soup p hp).2 u hu with ⟨m, hm⟩
    exact ⟨m.innerText, hm⟩
  have hbase : ∀ k' w, dlookup ([] : List (String × DVal)) k' = some w →
      ∃ u, w = DVal.s u ∧ NormalizedStr u := by
    intro k' w hw
    simp [dlookup] at hw
  simp only [parse_inmate_details] at h
  cases hct : findChargesTable soup with
  | none =>
    rw [hct] at h
    rcases details_fold_values (labelPairsNode soup) [] hps hbase k _ h with
      ⟨u, hu, hnu⟩
    have : v = u := by injection hu
    rw [this]
    exact hnu
  | some t =>
    rw [hct] at h
    rcases dlookup_dinsert_cases _ "charges" (DVal.charges (chargesOf t)) k _ h with
      h1 | h1
    · cases h1
    · rcases details_fold_values (labelPairsNode soup) [] hps hbase k _ h1 with
        ⟨u, hu, hnu⟩
      have : v = u := by injection hu
      rw [this]
      exact hnu

theorem parse_inmate_details_charges (soup : Node) (cs : List String) (c : String)
    (h : dlookup (parse_inmate_details soup) "charges" = some (DVal.charges cs))
    (hc : c ∈ cs) : ∃ ps, c = joinSpStr ps ∧ ∀ p ∈ ps, NormalizedStr p := by
  have hps : ∀ p ∈ labelPairsNode soup, ∀ u, p.2 = some u →
      ∃ x, u = clean_text x := by
    intro p hp u hu
    rcases (labelPairsNode_origin soup p hp).2 u hu with ⟨m, hm⟩
    exact ⟨m.innerText, hm⟩
  have hbase : ∀ k' w, dlookup ([] : List (String × DVal)) k' = some w →
      ∃ u, w = DVal.s u ∧ NormalizedStr u := by
    intro k' w hw
    simp [dlookup] at hw
  simp only [parse_inmate_details] at h
  cases hct : findChargesTable soup with
  | none =>
    rw [hct] at h
    rcases details_fold_values (labelPairsNode soup) [] hps hbase "charges" _ h with
      ⟨u, hu, -⟩
    cases hu
  | some t =>
    rw [hct] at h
    rcases dlookup_dinsert_cases _ "charges" (DVal.charges (chargesOf t))
        "charges" _ h with h1 | h1
    · have hcs : cs = chargesOf t := by injection h1
      subst hcs
      unfold chargesOf at hc
      rcases List.mem_filterMap.mp hc with ⟨row, _, hrow⟩
      by_cases he : (tdsOf row).isEmpty = true
      · rw [if_pos he] at hrow
        cases hrow
      · rw [if_neg he] at hrow
        have hcq : c = chargeOf row := (Option.some.inj hrow).symm
        refine ⟨(tdsOf row).map (fun cell => clean_text cell.innerText), ?_, ?_⟩
        · rw [hcq]; rfl
        · intro p hp
          rcases List.mem_map.mp hp with ⟨cell, -, hcell⟩
          rw [← hcell]
          exact clean_text_normalized _
    · rcases details_fold_values (labelPairsNode soup) [] hps hbase "charges" _ h1 with
        ⟨u, hu, -⟩
      cases hu

/-
  Claim theorems.
-/

/-- C1: any exception raised in the HTTP phase of search_inmates (modelled as
an Except.error of the try-block) is caught and the call returns the empty
list, and any exception raised in get_inmate_details is caught and the call
returns none; both wrappers are total functions, so no exception propagates
to the caller. -/
theorem c1_exceptions_to_empty :
    ∀ (get : String → Except String Node)
      (post : String → List (String × String) → Except String Node)
      (a b c : String) (fetch : String → Except String Node) (i : String),
    (∀ e, search_body get post a b c = Except.error e →
      search_inmates get post a b c = []) ∧
    (∀ e, details_body fetch i = Except.error e →
      get_inmate_details fetch i = none) := by
  intro get post a b c fetch i
  constructor
  · intro e he
    unfold search_inmates
    rw [he]
  · intro e he
    unfold get_inmate_details
    rw [he]

/-- C1 witness: with a failing HTTP layer, search returns the empty list and
the detail fetch returns none. -/
theorem c1_witness :
    search_inmates c1FailGet c1FailPost "doe" "" "" = [] ∧
    get_inmate_details c1FailGet "42" = none := by
  constructor
  · exact (c1_exceptions_to_empty c1FailGet c1FailPost "doe" "" "" c1FailGet
      "42").1 "connection timed out" rfl
  · exact (c1_exceptions_to_empty c1FailGet c1FailPost "doe" "" "" c1FailGet
      "42").2 "connection timed out" rfl

/-- C2 counterexample: on a page whose only table has id 'grid1' (matching
the claim's pattern 'grid' but not the code's pattern 'GridView') and no
class, the code returns the empty list while the claim's locator parses the
table's data row. -/
theorem c2_counterexample :
    parse_results c2CexDoc = [] ∧ parse_results_claim c2CexDoc ≠ [] := by
  constructor
  · decide
  · decide

/-- C2 amended: the results table is located by id pattern 'GridView'
(case-insensitive, substring), not 'grid'; failing that, by class pattern
'grid' or 'result'; if neither lookup finds a table the parse returns the
empty list. -/
theorem c2_table_locate : ∀ soup : Node,
    (findTableById soup = none → findTableByClass soup = none →
      parse_results soup = []) ∧
    (∀ t, findTableById soup = some t → parse_results soup = parseTableRows t) ∧
    (findTableById soup = none → ∀ t, findTableByClass soup = some t →
      parse_results soup = parseTableRows t) := by
  intro soup
  refine ⟨?_, ?_, ?_⟩
  · intro h1 h2
    unfold parse_results locatedTable
    rw [h1, h2]
  · intro t h1
    unfold parse_results locatedTable
    rw [h1]
  · intro h1 t h2
    unfold parse_results locatedTable
    rw [h1, h2]

/-- C2 witness: a table with id 'ctl00_GridView1' is located by the id
lookup and its rows are parsed. -/
theorem c2_witness : parse_results c2WitDoc = parseTableRows c2GoodTable :=
  (c2_table_locate c2WitDoc).2.1 c2GoodTable (by decide)

/-- C3 counterexample: when the __VIEWSTATE input is missing from the page,
the form-token bundle has no __VIEWSTATE field at all, rather than an
empty-string field as the claim states. -/
theorem c3_counterexample :
    dlookup (get_form_data c3NoTokenDoc) "__VIEWSTATE" = none ∧
    dlookup (get_form_data c3NoTokenDoc) "__VIEWSTATE" ≠ some "" := by
  constructor
  · decide
  · decide

/-- C3 amended: for each of the three hidden token names, a missing input
element leaves the field out of the form-token bundle entirely, while an
input element without a value attribute yields the empty string; no error is
raised either way (the extractor is total). -/
theorem c3_token_fields : ∀ (soup : Node) (nm : String),
    nm = "__VIEWSTATE" ∨ nm = "__VIEWSTATEGENERATOR" ∨ nm = "__EVENTVALIDATION" →
    dlookup (get_form_data soup) nm =
      (findFirst (isInputNamed nm) soup).map
        (fun n => (attrOf n "value").getD "") := by
  intro soup nm hnm
  rcases hnm with rfl | rfl | rfl <;>
  · cases h1 : findFirst (isInputNamed "__VIEWSTATE") soup <;>
    cases h2 : findFirst (isInputNamed "__VIEWSTATEGENERATOR") soup <;>
    cases h3 : findFirst (isInputNamed "__EVENTVALIDATION") soup <;>
    simp only [get_form_data, h1, h2, h3] <;>
    rfl

/-- C3 witness: an input without a value attribute yields the empty string,
and a missing input yields no field. -/
theorem c3_witness :
    dlookup (get_form_data c3NoValueDoc) "__VIEWSTATE" = some "" ∧
    dlookup (get_form_data c3NoTokenDoc) "__VIEWSTATEGENERATOR" = none := by
  constructor
  · rw [c3_token_fields c3NoValueDoc "__VIEWSTATE" (Or.inl rfl)]
    decide
  · rw [c3_token_fields c3NoTokenDoc "__VIEWSTATEGENERATOR" (Or.inr (Or.inl rfl))]
    decide

/-- C4: for a located results table whose rows are one header followed by
data rows, the parse returns one summary per data row with at least 3 td
cells (shorter rows are dropped); when every data row has at least 3 cells
the count equals the number of data rows. -/
theorem c4_row_count : ∀ (soup t hdr : Node) (rows : List Node),
    locatedTable soup = some t → trsOf t = hdr :: rows →
    (parse_results soup).length =
      (rows.filter (fun r => decide (3 ≤ (tdsOf r).length))).length ∧
    ((∀ r ∈ rows, 3 ≤ (tdsOf r).length) →
      (parse_results soup).length = rows.length) := by
  intro soup t hdr rows hloc htrs
  have hpr : parse_results soup = rows.filterMap parseRow := by
    unfold parse_results
    rw [hloc]
    show ((trsOf t).drop 1).filterMap parseRow = rows.filterMap parseRow
    rw [htrs]
    rfl
  constructor
  · rw [hpr]
    exact length_filterMap_parseRow rows
  · intro hall
    rw [hpr, length_filterMap_parseRow rows]
    have hfe : rows.filter (fun r => decide (3 ≤ (tdsOf r).length)) = rows :=
      List.filter_eq_self.mpr (fun r hr => decide_eq_true (hall r hr))
    rw [hfe]

/-- C4 witness: a table with one 4-cell row and one 2-cell row yields one
summary; a table with a 4-cell row and a 3-cell row yields two. -/
theorem c4_witness :
    (parse_results c4Doc).length = 1 ∧ (parse_results c4AllDoc).length = 2 := by
  constructor
  · have h := (c4_row_count c4Doc c4Table c4Hdr [c4Row1, c4Row2]
      (by decide) (by decide)).1
    rw [h]
    decide
  · exact (c4_row_count c4AllDoc c4AllTable c4Hdr [c4Row1, c4Row3]
      (by decide) (by decide)).2 (by decide)

/-- C5: on a detail page with exactly one label pair (its key not literally
'charges') and a charges table holding a header row and two data rows with
cells, the details mapping holds the label's value and a charges list of
length 2, each charge the space-joined cell texts of one non-header row. -/
theorem c5_detail_page : ∀ (soup t hdr r1 r2 : Node) (k v : String),
    labelPairsNode soup = [(k, some v)] → k ≠ "charges" →
    findChargesTable soup = some t → trsOf t = [hdr, r1, r2] →
    tdsOf r1 ≠ [] → tdsOf r2 ≠ [] →
    dlookup (parse_inmate_details soup) k = some (DVal.s v) ∧
    dlookup (parse_inmate_details soup) "charges" =
      some (DVal.charges [chargeOf r1, chargeOf r2]) := by
  intro soup t hdr r1 r2 k v hlp hk hct htrs h1 h2
  have hche : chargesOf t = [chargeOf r1, chargeOf r2] := by
    unfold chargesOf
    rw [htrs]
    simp [List.filterMap_cons, h1, h2]
  have hd : parse_inmate_details soup =
      [(k, DVal.s v), ("charges", DVal.charges (chargesOf t))] := by
    simp only [parse_inmate_details]
    rw [hlp, hct]
    show dinsert (dinsert [] k (DVal.s v)) "charges"
      (DVal.charges (chargesOf t)) = _
    have hins1 : dinsert ([] : List (String × DVal)) k (DVal.s v) =
        [(k, DVal.s v)] := by
      unfold dinsert
      simp
    rw [hins1]
    unfold dinsert
    rw [if_neg (by simp [List.any_cons, beq_eq_false_iff_ne.mpr hk])]
    rfl
  rw [hd, hche]
  constructor
  · rw [dlookup_cons, if_pos (beq_self_eq_true k)]
  · rw [dlookup_cons,
      if_neg (show ¬ (k == "charges") = true from fun hc => hk (eq_of_beq hc)),
      dlookup_cons, if_pos (beq_self_eq_true "charges")]

/-- C5 witness: on the concrete detail page the mapping holds the label's
value and the two joined charge rows. -/
theorem c5_witness :
    dlookup (parse_inmate_details c5Doc) "Name:" = some (DVal.s "DOE, JIM") ∧
    dlookup (parse_inmate_details c5Doc) "charges" =
      some (DVal.charges ["THEFT FELONY", "BATTERY"]) := by
  have h := c5_detail_page c5Doc c5Table c5Hdr c5R1 c5R2 "Name:" "DOE, JIM"
    (by decide) (by decide) (by decide) (by decide) (by decide) (by decide)
  refine ⟨h.1, ?_⟩
  rw [h.2]
  decide

/-- C6 counterexample: the first cell's link carries a numeric query
parameter (PersonID=123), yet the parsed summary has no inmate id, because
the code only matches the literal parameter name InmateID. -/
theorem c6_counterexample :
    firstCellLinkHref c6Row = some "InmateDetail.aspx?PersonID=123" ∧
    hasNumericQueryParam "InmateDetail.aspx?PersonID=123" = true ∧
    (parse_results c6CexDoc).map (fun i => i.inmate_id) = [none] := by
  refine ⟨by decide, by decide, by decide⟩

/-- C6 amended: the inmate id of a parsed row comes from matching the
literal 'InmateID=' followed by digits inside the first cell's link href:
with no link there is no id field, with a link the id is the regex result,
and any extracted id is a nonempty digit string preceded by 'InmateID='
inside the href. -/
theorem c6_inmate_id : ∀ (row : Node) (i : Inmate), parseRow row = some i →
    (firstCellLinkHref row = none → i.inmate_id = none) ∧
    (∀ h, firstCellLinkHref row = some h → i.inmate_id = searchInmateID h) ∧
    (∀ s, i.inmate_id = some s → s ≠ "" ∧ (∀ c ∈ s.data, c.isDigit = true) ∧
      ∃ href pre post, firstCellLinkHref row = some href ∧
        href.data = pre ++ ("InmateID=" ++ s).data ++ post) := by
  intro row i hpr
  have hid := (parseRow_some row i hpr).2.2.2.2.2.2.2.2.2
  refine ⟨?_, ?_, ?_⟩
  · intro hnone
    rw [hid, hnone]
    rfl
  · intro h hsome
    rw [hid, hsome]
    rfl
  · intro s hs
    rw [hid] at hs
    cases hh : firstCellLinkHref row with
    | none =>
      rw [hh] at hs
      cases hs
    | some href =>
      rw [hh] at hs
      rcases searchInmateID_shape href s hs with ⟨hne, hdig, pre, post, hdec⟩
      exact ⟨hne, hdig, href, pre, post, rfl, hdec⟩

/-- C6 witness: a row whose first cell links to InmateID=456 yields the id
from the regex search on that href. -/
theorem c6_witness :
    c6WitInmate.inmate_id = searchInmateID "InmateDetail.aspx?InmateID=456" :=
  (c6_inmate_id c6WitRow c6WitInmate (by decide)).2.1
    "InmateDetail.aspx?InmateID=456" (by decide)

/-- C7 counterexample: a div with a label class and a following value span
is captured by the claim's any-tag extractor but contributes nothing to the
parsed details, because the code only searches span elements. -/
theorem c7_counterexample :
    labelPairsAnyNode c7CexDoc = [("Name:", some "DOE, JIM")] ∧
    parse_inmate_details c7CexDoc = [] := by
  constructor
  · decide
  · decide

/-- C7 amended: label/value pairs are captured only from span elements whose
class matches 'label' (case-insensitive): with no such span there are no
pairs, and every captured pair's key is the cleaned text of such a span. -/
theorem c7_label_spans : ∀ soup : Node,
    ((∀ m ∈ descendants soup, isLabelSpan m = false) →
      labelPairsNode soup = []) ∧
    (∀ p ∈ labelPairsNode soup, ∃ m ∈ descendants soup,
      isLabelSpan m = true ∧ p.1 = clean_text m.innerText) := by
  intro soup
  constructor
  · intro hno
    cases hlp : labelPairsNode soup with
    | nil => rfl
    | cons p t =>
      have hp : p ∈ labelPairsNode soup := by
        rw [hlp]
        simp
      rcases (labelPairsNode_origin soup p hp).1 with ⟨m, hm, hml, -⟩
      rw [hno m hm] at hml
      cases hml
  · intro p hp
    exact (labelPairsNode_origin soup p hp).1

/-- C7 witness: the div-label page has no label spans, hence no pairs. -/
theorem c7_witness : labelPairsNode c7CexDoc = [] :=
  (c7_label_spans c7CexDoc).1 (by decide)

/-- C8 counterexample: the cleaner is not idempotent on the one-space
string, whose first pass gives the empty string and whose second pass gives
the sentinel. -/
theorem c8_counterexample : clean_text (clean_text " ") ≠ clean_text " " := by
  decide

/-- C8 amended: the cleaner is idempotent on every string that is empty or
holds a non-whitespace character (whitespace-only nonempty strings clean to
the empty string, which cleans to the sentinel), and every output has no
leading or trailing whitespace, no run of two whitespace characters, and
only plain spaces as whitespace. -/
theorem c8_clean_text : ∀ s : String,
    ((s = "" ∨ ∃ c ∈ s.data, c.isWhitespace = false) →
      clean_text (clean_text s) = clean_text s) ∧
    NormalizedStr (clean_text s) := by
  intro s
  exact ⟨clean_text_idem s, clean_text_normalized s⟩

/-- C8 witness: cleaning 'a  b' is idempotent and the result normalized. -/
theorem c8_witness :
    clean_text (clean_text "a  b") = clean_text "a  b" ∧
    NormalizedStr (clean_text "a  b") := by
  refine ⟨(c8_clean_text "a  b").1 (Or.inr ?_), (c8_clean_text "a  b").2⟩
  decide

/-- C9 counterexample: a charges row with a whitespace-only cell yields the
charge string 'a ' with trailing whitespace, breaking the normalization
invariant for charge strings. -/
theorem c9_counterexample :
    dlookup (parse_inmate_details c9CexDoc) "charges" =
      some (DVal.charges ["a "]) ∧ ¬ NormalizedStr "a " := by
  constructor
  · decide
  · decide

/-- C9 amended: every string field of every parsed summary and every label
value in the details mapping is whitespace-normalized; each charge string is
the space-join of the cleaned (hence normalized) cell texts, but the join
itself may reintroduce stray spaces when a cell cleans to the empty
string. -/
theorem c9_normalized : ∀ soup : Node,
    (∀ i ∈ parse_results soup,
      NormalizedStr i.name ∧ NormalizedStr i.booking_number ∧
      NormalizedStr i.booking_date ∧ NormalizedStr i.age ∧
      NormalizedStr i.gender ∧ NormalizedStr i.race ∧
      NormalizedStr i.facility ∧ NormalizedStr i.source ∧
      (∀ s, i.inmate_id = some s → NormalizedStr s)) ∧
    (∀ k v, dlookup (parse_inmate_details soup) k = some (DVal.s v) →
      NormalizedStr v) ∧
    (∀ cs c, dlookup (parse_inmate_details soup) "charges" =
        some (DVal.charges cs) → c ∈ cs →
      ∃ ps, c = joinSpStr ps ∧ ∀ p ∈ ps, NormalizedStr p) := by
  intro soup
  exact ⟨fun i hi => parse_results_normalized soup i hi,
    fun k v h => parse_inmate_details_values soup k v h,
    fun cs c h hc => parse_inmate_details_charges soup cs c h hc⟩

/-- C9 witness: the label value parsed from the concrete detail page is
normalized. -/
theorem c9_witness : NormalizedStr "2024-03-04" :=
  (c9_normalized c9WitDoc).2.1 "Booked:" "2024-03-04" (by decide)

/-- C10: get_inmate_details returns none exactly when the fetch raises, and
a page fetched without error that has no label span and no charges table
yields the empty mapping (some []), not none. -/
theorem c10_empty_mapping :
    ∀ (get : String → Except String Node) (inmate_id : String),
    (get_inmate_details get inmate_id = none ↔
      ∃ e, get (detail_url inmate_id) = Except.error e) ∧
    (∀ soup, get (detail_url inmate_id) = Except.ok soup →
      labelPairsNode soup = [] → findChargesTable soup = none →
      get_inmate_details get inmate_id = some []) := by
  intro get inmate_id
  cases hg : get (detail_url inmate_id) with
  | ok soup =>
    have hv : get_inmate_details get inmate_id =
        some (parse_inmate_details soup) := by
      unfold get_inmate_details details_body
      rw [hg]
      rfl
    constructor
    · constructor
      · intro h
        rw [hv] at h
        cases h
      · rintro ⟨e, he⟩
        cases he
    · intro soup' hok hlp hct
      have hss : soup' = soup := (Except.ok.inj hok).symm
      subst hss
      rw [hv]
      congr 1
      simp only [parse_inmate_details]
      rw [hlp, hct]
      rfl
  | error e =>
    have hv : get_inmate_details get inmate_id = none := by
      unfold get_inmate_details details_body
      rw [hg]
      rfl
    constructor
    · constructor
      · intro _
        exact ⟨e, rfl⟩
      · intro _
        exact hv
    · intro soup hok
      cases hok

/-- C10 witness: fetching a page with no labels and no charges table yields
the empty mapping. -/
theorem c10_witness : get_inmate_details c10Get "7" = some [] :=
  (c10_empty_mapping c10Get "7").2 c10Doc rfl (by decide) (by decide)

end SimpleScraper
